import Mathlib

/-!
# IronBase core: spec-modelled verification

IronBase is an embedded single-process document database with a single-file
primary store, a write-ahead log (WAL), configurable durability modes
(Safe / Batch(N) / Unsafe), transactions, secondary indexes, a document
query/update language and an offline compactor.

The repository ships the engine behind a compiled binding; only its Python
test-suite and examples are present as source.  Every definition below is
therefore modelled from the specification of the core engine (sections are
cited in the doc comments), and the theorems settle the behavioural claims
against that model.
-/

namespace IronBase

/-- Modelled from the spec (§3 Data model): a document value is a recursive
value — null, bool, 64-bit int, UTF-8 string, array of values, or a mapping
from string keys to values.  The spec's IEEE-754 float variant is omitted:
none of the verified claims involves floating-point values, and floats do
not embed shallowly. -/
inductive Value where
  | null : Value
  | bool (b : Bool) : Value
  | int (n : Int) : Value
  | str (s : String) : Value
  | arr (xs : List Value) : Value
  | doc (fields : List (String × Value)) : Value
deriving Repr

mutual

/-- Modelled from the spec (§4.6 `$addToSet`, §4.5 equality): structural
deep equality on document values. -/
def Value.beq : Value → Value → Bool
  | .null, .null => true
  | .bool a, .bool b => a == b
  | .int a, .int b => a == b
  | .str a, .str b => a == b
  | .arr xs, .arr ys => Value.beqList xs ys
  | .doc fs, .doc gs => Value.beqFields fs gs
  | _, _ => false

/-- Deep equality, element-wise on arrays. -/
def Value.beqList : List Value → List Value → Bool
  | [], [] => true
  | x :: xs, y :: ys => Value.beq x y && Value.beqList xs ys
  | _, _ => false

/-- Deep equality, field-wise on mappings (order-sensitive, matching the
serialized-record comparison). -/
def Value.beqFields : List (String × Value) → List (String × Value) → Bool
  | [], [] => true
  | (k, v) :: fs, (l, w) :: gs => k == l && Value.beq v w && Value.beqFields fs gs
  | _, _ => false

end

/-- Rank of a value kind in the canonical order of the spec (§4.4):
nulls < booleans < numbers < strings < arrays < mappings. -/
def Value.rank : Value → Nat
  | .null => 0
  | .bool _ => 1
  | .int _ => 2
  | .str _ => 3
  | .arr _ => 4
  | .doc _ => 5

mutual

/-- Modelled from the spec (§4.4 key order, §4.5 comparisons): total order
on values — kinds ordered by rank (never equal across kinds), ints by
numeric value, bools false < true, strings by code-point order, arrays and
mappings lexicographically. -/
def Value.cmp : Value → Value → Ordering
  | .null, .null => .eq
  | .bool a, .bool b => compare a b
  | .int a, .int b => compare a b
  | .str a, .str b => compare a b
  | .arr xs, .arr ys => Value.cmpList xs ys
  | .doc fs, .doc gs => Value.cmpFields fs gs
  | a, b => compare a.rank b.rank

/-- Lexicographic order on arrays of values. -/
def Value.cmpList : List Value → List Value → Ordering
  | [], [] => .eq
  | [], _ :: _ => .lt
  | _ :: _, [] => .gt
  | x :: xs, y :: ys =>
    match Value.cmp x y with
    | .eq => Value.cmpList xs ys
    | o => o

/-- Lexicographic order on mapping fields (key, then value). -/
def Value.cmpFields : List (String × Value) → List (String × Value) → Ordering
  | [], [] => .eq
  | [], _ :: _ => .lt
  | _ :: _, [] => .gt
  | (k, v) :: fs, (l, w) :: gs =>
    match compare k l with
    | .eq =>
      match Value.cmp v w with
      | .eq => Value.cmpFields fs gs
      | o => o
    | o => o

end

/-- First binding of key `k` in a mapping's field list. -/
def lookupField (fs : List (String × Value)) (k : String) : Option Value :=
  match fs with
  | [] => none
  | (l, v) :: rest => if l = k then some v else lookupField rest k

/-- Modelled from the spec (§4.5 dot paths): project a value along a
dot-delimited path; `none` when a segment is missing or the value is not a
mapping. -/
def getPath (v : Value) : List String → Option Value
  | [] => some v
  | k :: rest =>
    match v with
    | .doc fs =>
      match lookupField fs k with
      | some w => getPath w rest
      | none => none
    | _ => none

theorem Value.beq_refl : ∀ (v : Value), v.beq v = true := by
  have key : ∀ (n : Nat) (v : Value), sizeOf v ≤ n → v.beq v = true := by
    intro n
    induction n with
    | zero => intro v h; cases v <;> simp at h
    | succ n ih =>
      intro v hsz
      have listStep : ∀ (xs : List Value), (∀ x ∈ xs, sizeOf x ≤ n) →
          Value.beqList xs xs = true := by
        intro xs hmem
        induction xs with
        | nil => simp [Value.beqList]
        | cons x xs ihx =>
          simp only [Value.beqList, Bool.and_eq_true]
          exact ⟨ih x (hmem x (by simp)),
                 ihx (fun y hy => hmem y (by simp [hy]))⟩
      have fieldStep : ∀ (fs : List (String × Value)),
          (∀ p ∈ fs, sizeOf p.2 ≤ n) → Value.beqFields fs fs = true := by
        intro fs hmem
        induction fs with
        | nil => simp [Value.beqFields]
        | cons p fs ihf =>
          obtain ⟨k, v⟩ := p
          simp only [Value.beqFields, Bool.and_eq_true]
          refine ⟨⟨by simp, ih v (hmem (k, v) (by simp))⟩,
                  ihf (fun q hq => hmem q (by simp [hq]))⟩
      cases v with
      | null => simp [Value.beq]
      | bool b => simp [Value.beq]
      | int m => simp [Value.beq]
      | str s => simp [Value.beq]
      | arr xs =>
        simp only [Value.beq]
        refine listStep xs (fun x hx => ?_)
        have := List.sizeOf_lt_of_mem hx
        simp only [Value.arr.sizeOf_spec] at hsz
        omega
      | doc fs =>
        simp only [Value.beq]
        refine fieldStep fs (fun p hp => ?_)
        have h1 := List.sizeOf_lt_of_mem hp
        have h2 : sizeOf p.2 ≤ sizeOf p := by
          obtain ⟨k, v⟩ := p; simp
        simp only [Value.doc.sizeOf_spec] at hsz
        omega
  exact fun v => key (sizeOf v) v le_rfl

/-! ## Filter evaluation (§4.5 Query engine) -/

/-- Comparison operators of the filter language (§4.5). -/
inductive CmpOp where
  | eq | ne | gt | gte | lt | lte
deriving DecidableEq, Repr

/-- Whether a single comparison holds between a document value and the
filter's target value, under the canonical total order. -/
def cmpOpHolds (op : CmpOp) (x target : Value) : Bool :=
  match op, Value.cmp x target with
  | .eq, .eq => true
  | .ne, .lt => true
  | .ne, .gt => true
  | .gt, .gt => true
  | .gte, .gt => true
  | .gte, .eq => true
  | .lt, .lt => true
  | .lte, .lt => true
  | .lte, .eq => true
  | _, _ => false

/-- One comparison condition of a filter document: a dot path, an operator
and a target value.  A Mongo-style filter `{p: {$gt: a, $lt: b}}` is the
conjunction of its listed conditions. -/
structure Cond where
  path : List String
  op : CmpOp
  value : Value
deriving Repr

/-- Modelled from the spec (§4.5): evaluate one comparison at a dot path.
A path into an array matches if any element matches; a missing path does
not match a comparison. -/
def matchCmpAt (d : Value) (path : List String) (op : CmpOp) (target : Value) : Bool :=
  match getPath d path with
  | none => false
  | some x =>
    cmpOpHolds op x target ||
      (match x with
       | .arr xs => xs.any fun e => cmpOpHolds op e target
       | _ => false)

/-- A conjunctive filter document: all listed conditions must hold. -/
def matchesConds (conds : List Cond) (d : Value) : Bool :=
  conds.all fun c => matchCmpAt d c.path c.op c.value

/-! ## Collections, inserts, unique indexes, updates (§3, §4.4, §4.6) -/

/-- Modelled from the spec (§3 Collection): the in-memory view of a
collection — the monotone `last_id` allocator and the document catalog,
here directly carrying the live document for each `_id`. -/
structure Collection where
  lastId : Nat
  docs : List (Nat × Value)
deriving Repr

/-- The empty collection. -/
def Collection.empty : Collection := ⟨0, []⟩

/-- Modelled from the spec (§4.5 FullScan): iterate the catalog and
evaluate the full filter on each live document. -/
def Collection.find (c : Collection) (conds : List Cond) : List Value :=
  (c.docs.map Prod.snd).filter (matchesConds conds)

/-- Modelled from the spec (§4.5): `count_documents` uses the same filter
path; on the empty filter it equals `document_count`. -/
def Collection.countDocuments (c : Collection) (conds : List Cond) : Nat :=
  (c.find conds).length

/-- Error taxonomy of the spec (§7), restricted to the kinds the claims
exercise. -/
inductive DbError where
  | duplicateKey
  | invalidArgument
  | transactionNotFound
  | transactionClosed
deriving DecidableEq, Repr

/-- Index descriptor (§3): key path and uniqueness flag. -/
structure IndexSpec where
  keyPath : List String
  unique : Bool
deriving Repr

/-- Modelled from the spec (§4.4 Uniqueness): a unique-index violation —
the new document's key at the indexed path already maps to an existing
live document's key (deep-equal keys). -/
def uniqueViolation (c : Collection) (idx : IndexSpec) (d : Value) : Bool :=
  idx.unique &&
    (match getPath d idx.keyPath with
     | none => false
     | some k =>
       c.docs.any fun p =>
         match getPath p.2 idx.keyPath with
         | some k' => k'.beq k
         | none => false)

/-- Modelled from the spec (§3 lifecycle, §4.4 uniqueness, §7): insert a
document; on a unique-index violation fail with `DuplicateKey` leaving the
collection unchanged, otherwise allocate `last_id + 1` and append a
catalog entry. -/
def Collection.insertOne (c : Collection) (idxs : List IndexSpec) (d : Value) :
    Collection × Except DbError Nat :=
  if idxs.any fun idx => uniqueViolation c idx d then
    (c, .error .duplicateKey)
  else
    let id := c.lastId + 1
    (⟨id, c.docs ++ [(id, d)]⟩, .ok id)

/-- Replace the binding of key `k` (appending it if absent), used by the
update operators' path writes. -/
def setField (fs : List (String × Value)) (k : String) (v : Value) :
    List (String × Value) :=
  match fs with
  | [] => [(k, v)]
  | (l, w) :: rest => if l = k then (k, v) :: rest else (l, w) :: setField rest k v

/-- Modelled from the spec (§4.6 `$addToSet`): append the value to the
array at the dot path iff no element deep-equal to it is already present;
create intermediate mappings (and the array) as needed; fail on a
non-array target. -/
def applyAddToSet (d : Value) (path : List String) (v : Value) : Option Value :=
  match d, path with
  | .doc fs, [k] =>
    (match lookupField fs k with
     | some (.arr xs) =>
       if xs.any fun x => x.beq v then some (.doc fs)
       else some (.doc (setField fs k (.arr (xs ++ [v]))))
     | some _ => none
     | none => some (.doc (setField fs k (.arr [v]))))
  | .doc fs, k :: rest =>
    (match applyAddToSet ((lookupField fs k).getD (.doc [])) rest v with
     | some sub => some (.doc (setField fs k sub))
     | none => none)
  | _, _ => none

/-- Update specifications exercised by the claims (§4.6). -/
inductive UpdateSpec where
  | addToSet (path : List String) (v : Value)
deriving Repr

/-- Dispatch an update operator on a root document. -/
def applyUpdate (u : UpdateSpec) (d : Value) : Option Value :=
  match u with
  | .addToSet p v => applyAddToSet d p v

/-- Return shape of `update_one` (§4.6): `modified_count` counts documents
whose post-update serialization differs from the pre-update one. -/
structure UpdateResult where
  matched : Nat
  modified : Nat
deriving DecidableEq, Repr

/-- Modelled from the spec (§4.6, §6 `update_one`): find the first document
matching the filter, apply the update, and retarget the catalog entry when
the serialization changed; per-operation errors leave state unchanged. -/
def Collection.updateOne (c : Collection) (conds : List Cond) (u : UpdateSpec) :
    Collection × Except DbError UpdateResult :=
  match c.docs.find? (fun p => matchesConds conds p.2) with
  | none => (c, .ok ⟨0, 0⟩)
  | some (id, d) =>
    match applyUpdate u d with
    | none => (c, .error .invalidArgument)
    | some d' =>
      if d'.beq d then (c, .ok ⟨1, 0⟩)
      else (⟨c.lastId, c.docs.map fun p => if p.1 = id then (id, d') else p⟩,
            .ok ⟨1, 1⟩)

/-! ## Primary store file and compaction (§4.1, §4.10) -/

mutual

/-- Modelled from the spec (§3 document record, §6 on-disk formats): size
in bytes of the serialized form of a value — a one-byte kind tag, 8-byte
ints, length-prefixed strings (sizes of the claims' ASCII strings equal
their character counts), length-prefixed arrays and mappings. -/
def Value.encSize : Value → Nat
  | .null => 1
  | .bool _ => 2
  | .int _ => 9
  | .str s => 5 + s.length
  | .arr xs => 5 + Value.encSizeList xs
  | .doc fs => 5 + Value.encSizeFields fs

/-- Total serialized size of an array's elements. -/
def Value.encSizeList : List Value → Nat
  | [] => 0
  | x :: xs => Value.encSize x + Value.encSizeList xs

/-- Total serialized size of a mapping's fields (length-prefixed key plus
value). -/
def Value.encSizeFields : List (String × Value) → Nat
  | [] => 0
  | (k, v) :: fs => 4 + k.length + Value.encSize v + Value.encSizeFields fs

end

/-- Modelled from the spec (§3 document record): an on-disk record in the
append-only data region — a live document record, or a delete tombstone
carrying only the original `_id`. -/
inductive Record where
  | live (id : Nat) (d : Value)
  | tombstone (id : Nat)
deriving Repr

/-- Whether a record is a tombstone. -/
def Record.isTombstone : Record → Bool
  | .live _ _ => false
  | .tombstone _ => true

/-- On-disk size of a record: 4-byte length header plus the payload (a
serialized document, or the tombstone's `_id` and marker). -/
def Record.size : Record → Nat
  | .live _ d => 4 + d.encSize
  | .tombstone _ => 4 + 10

/-- Modelled from the spec (§4.1, §4.3): the primary store of one
collection — the records of the data region in append order, and the
catalog mapping each `_id` to the position of its current live record. -/
structure Store where
  records : List Record
  catalog : List (Nat × Nat)
  lastId : Nat
deriving Repr

/-- The store of a freshly created database file. -/
def Store.empty : Store := ⟨[], [], 0⟩

/-- Total primary-file size: the fixed 256-byte header plus the data
region (§4.1). -/
def Store.fileSize (s : Store) : Nat :=
  256 + (s.records.map Record.size).sum

/-- Document count of the store: the cardinality of the catalog (§3). -/
def Store.countDocuments (s : Store) : Nat := s.catalog.length

/-- Look up the live document with the given `_id` through the catalog. -/
def Store.lookup (s : Store) (id : Nat) : Option Value :=
  match (s.catalog.find? fun p => p.1 = id) with
  | none => none
  | some (_, off) =>
    match s.records.get? off with
    | some (.live _ d) => some d
    | _ => none

/-- Modelled from the spec (§3 lifecycle): insert appends a live record at
the file tail and adds a catalog entry with the freshly allocated `_id`. -/
def Store.insertDoc (s : Store) (d : Value) : Store :=
  let id := s.lastId + 1
  ⟨s.records ++ [.live id d], s.catalog ++ [(id, s.records.length)], id⟩

/-- Modelled from the spec (§3 lifecycle): delete removes the catalog
entry and appends a delete tombstone; deleting an absent `_id` is a
no-op reporting `deleted_count = 0`. -/
def Store.deleteDoc (s : Store) (id : Nat) : Store × Nat :=
  if s.catalog.any fun p => p.1 = id then
    (⟨s.records ++ [.tombstone id], s.catalog.filter fun p => ¬(p.1 = id), s.lastId⟩, 1)
  else (s, 0)

/-- Compaction report (§4.10), restricted to the fields the claims
inspect. -/
structure CompactStats where
  documentsScanned : Nat
  documentsKept : Nat
  tombstonesRemoved : Nat
  sizeBefore : Nat
  sizeAfter : Nat
deriving DecidableEq, Repr

/-- Modelled from the spec (§4.10 Compactor): iterate the catalog, copy
each live record to a fresh file recording its new offset, and report the
statistics; tombstones and unreachable records are not copied. -/
def Store.compact (s : Store) : Store × CompactStats :=
  let kept := s.catalog.filterMap fun p =>
    match s.records.get? p.2 with
    | some (.live id d) => some (p.1, Record.live id d)
    | _ => none
  let newRecords := kept.map Prod.snd
  let newCatalog := (List.range kept.length).zip (kept.map Prod.fst) |>.map
    fun q => (q.2, q.1)
  let s' : Store := ⟨newRecords, newCatalog, s.lastId⟩
  (s', ⟨s.records.length, kept.length,
        (s.records.filter Record.isTombstone).length,
        s.fileSize, s'.fileSize⟩)

/-- Modelled from the spec (§4.1 metadata trailer): the durable image
written by `close`/`checkpoint` — the data region together with the
trailer's serialized catalog and `last_id`. -/
structure PersistedFile where
  records : List Record
  trailerCatalog : List (Nat × Nat)
  trailerLastId : Nat
deriving Repr

/-- Close: flush the in-memory catalog into the metadata trailer. -/
def Store.close (s : Store) : PersistedFile :=
  ⟨s.records, s.catalog, s.lastId⟩

/-- Open: rebuild the in-memory catalog from the trailer-declared
catalog of a cleanly closed file. -/
def openStore (f : PersistedFile) : Store :=
  ⟨f.records, f.trailerCatalog, f.trailerLastId⟩

/-! ## Write-ahead log, replay, durability modes, transactions
(§4.2, §4.8, §4.9) -/

/-- A logged storage operation: the collection name and the materialized
effect (§4.2 record kinds Insert/Update/Delete, §4.8 pending
operations). -/
inductive Op where
  | insertOp (col : String) (id : Nat) (d : Value)
  | updateOp (col : String) (id : Nat) (d : Value)
  | deleteOp (col : String) (id : Nat)
deriving Repr

/-- Modelled from the spec (§4.2, §9 WAL framing): a WAL frame — a
transaction marker or an operation frame carrying its transaction id. -/
inductive Frame where
  | beginTxn (tx : Nat)
  | opFrame (tx : Nat) (op : Op)
  | commitTxn (tx : Nat)
  | checkpointF
deriving Repr

/-- Whether a frame is the commit marker of transaction `t`. -/
def Frame.isCommitOf (t : Nat) : Frame → Bool
  | .commitTxn u => u = t
  | _ => false

/-- Whether a frame is a commit marker at all. -/
def Frame.isCommit : Frame → Bool
  | .commitTxn _ => true
  | _ => false

/-- The transaction id carried by a frame (§9 frame layout). -/
def Frame.txOf : Frame → Option Nat
  | .beginTxn t => some t
  | .opFrame t _ => some t
  | .commitTxn t => some t
  | .checkpointF => none

/-- Whether any frame of the log belongs to transaction `t`. -/
def walHasTx (wal : List Frame) (t : Nat) : Bool :=
  wal.any fun f => f.txOf == some t

/-- The database state replay acts on: named collections (§2 data flow). -/
def DbState := List (String × Collection)

/-- The state of a database with no collections yet. -/
def DbState.empty : DbState := []

/-- Collection accessor; absent names denote the empty collection. -/
def DbState.getCol : DbState → String → Collection
  | [], _ => Collection.empty
  | (m, c) :: rest, n => if m = n then c else DbState.getCol rest n

/-- Replace (or create) a named collection. -/
def DbState.setCol : DbState → String → Collection → DbState
  | [], n, c => [(n, c)]
  | (m, c') :: rest, n, c =>
    if m = n then (n, c) :: rest else (m, c') :: DbState.setCol rest n c

/-- Modelled from the spec (§4.2 replay step 3, §4.3 catalog operations):
apply one logged operation to the in-memory state — insert adds a catalog
entry keeping `last_id` monotone, update retargets, delete removes. -/
def DbState.applyOp (st : DbState) (op : Op) : DbState :=
  match op with
  | .insertOp col id d =>
    let c := st.getCol col
    st.setCol col ⟨max c.lastId id, c.docs ++ [(id, d)]⟩
  | .updateOp col id d =>
    let c := st.getCol col
    st.setCol col ⟨c.lastId, c.docs.map fun p => if p.1 = id then (id, d) else p⟩
  | .deleteOp col id =>
    let c := st.getCol col
    st.setCol col ⟨c.lastId, c.docs.filter fun p => ¬(p.1 = id)⟩

/-- Whether the log contains a commit frame for transaction `t` (§4.2
replay step 2: a group lacking a matching `Commit` is discarded). -/
def walCommitted (wal : List Frame) (t : Nat) : Bool :=
  wal.any (Frame.isCommitOf t)

/-- Replay decision for one frame (§4.2 replay step 2): keep an operation
frame iff its transaction has a matching commit frame in the log. -/
def replayKeep (wal : List Frame) : Frame → Option (Nat × Op)
  | .opFrame t op => if walCommitted wal t then some (t, op) else none
  | _ => none

/-- Modelled from the spec (§4.2 replay steps 2–3): the operations the
replay applies, in log order, each with its transaction id — exactly the
operation frames of transactions that have a matching commit frame. -/
def walReplayTagged (wal : List Frame) : List (Nat × Op) :=
  wal.filterMap (replayKeep wal)

/-- The replayed operations without their transaction tags. -/
def walReplayOps (wal : List Frame) : List Op :=
  (walReplayTagged wal).map Prod.snd

/-- All operation frames of transaction `t`, in log order. -/
def walOpsOf (wal : List Frame) (t : Nat) : List Op :=
  wal.filterMap fun f =>
    match f with
    | .opFrame u op => if u = t then some op else none
    | _ => none

/-- Modelled from the spec (§4.2 replay): recovery applies the committed
operations in sequence to the last durably checkpointed state. -/
def recover (base : DbState) (wal : List Frame) : DbState :=
  (walReplayOps wal).foldl DbState.applyOp base

/-- Durability modes (§4.9): Safe, Batch(N), Unsafe. -/
inductive Mode where
  | safe
  | batch (n : Nat)
  | unsafeMode
deriving DecidableEq, Repr

/-- Modelled from the spec (§4.2, §4.8, §4.9, §5): a database handle — the
durably checkpointed state, the in-memory state readers consult, the WAL
contents with the length of their fsynced prefix, the transaction-id
allocator, the open explicit transaction and its buffered operations, and
the implicit batch-mode transaction in progress. -/
structure Handle where
  mode : Mode
  checkpointed : DbState
  mem : DbState
  wal : List Frame
  walSynced : Nat
  nextTx : Nat
  curTx : Option Nat
  txBuf : List Op
  batchTx : Option Nat
  batchCount : Nat

/-- A handle freshly opened on a new database file. -/
def Handle.openFresh (m : Mode) : Handle :=
  ⟨m, DbState.empty, DbState.empty, [], 0, 1, none, [], none, 0⟩

/-- Modelled from the spec (§4.8, §4.9) and the repository's transaction
tests: a plain (non-`_tx`) `insert_one`.  With an open transaction on the
handle the operation is captured into it — frame appended under that
transaction, effect buffered until commit (`last_id` is allocated
eagerly).  Otherwise Safe mode wraps the operation in an implicit
`BeginTxn/Commit` pair fsynced before returning; Batch(N) appends the
operation under the implicit batch transaction and emits a fsynced commit
every Nth operation; Unsafe bypasses the WAL. -/
def Handle.insertOne (h : Handle) (col : String) (d : Value) : Handle × Nat :=
  let c := h.mem.getCol col
  let id := c.lastId + 1
  let op := Op.insertOp col id d
  match h.curTx with
  | some t =>
    ({ h with mem := h.mem.setCol col ⟨id, c.docs⟩,
              wal := h.wal ++ [.opFrame t op],
              txBuf := h.txBuf ++ [op] }, id)
  | none =>
    match h.mode with
    | .safe =>
      let t := h.nextTx
      let wal' := h.wal ++ [.beginTxn t, .opFrame t op, .commitTxn t]
      ({ h with mem := h.mem.applyOp op,
                wal := wal',
                walSynced := wal'.length,
                nextTx := t + 1 }, id)
    | .batch n =>
      let t := match h.batchTx with | some t => t | none => h.nextTx
      let pre : List Frame := match h.batchTx with
        | some _ => []
        | none => [.beginTxn t]
      let cnt := h.batchCount + 1
      if n ≤ cnt then
        let wal' := h.wal ++ pre ++ [.opFrame t op, .commitTxn t]
        ({ h with mem := h.mem.applyOp op,
                  wal := wal',
                  walSynced := wal'.length,
                  nextTx := max h.nextTx (t + 1),
                  batchTx := none,
                  batchCount := 0 }, id)
      else
        ({ h with mem := h.mem.applyOp op,
                  wal := h.wal ++ pre ++ [.opFrame t op],
                  nextTx := max h.nextTx (t + 1),
                  batchTx := some t,
                  batchCount := cnt }, id)
    | .unsafeMode =>
      ({ h with mem := h.mem.applyOp op }, id)

/-- Modelled from the spec (§4.2, §4.6, §4.8, §4.9) and the repository's
transaction tests: a plain (non-`_tx`) `update_one`.  The filter selects
the first matching live document of the in-memory state (buffered
transaction effects are invisible before commit, §4.8), and the update is
materialized as an `Update(col, _id, new_doc)` operation.  A no-op update
(`modified_count = 0`) writes nothing.  With an open transaction on the
handle the operation is captured into it — frame appended under that
transaction, effect buffered until commit.  Otherwise Safe mode wraps it
in an implicit `BeginTxn/Commit` pair fsynced before returning, Batch(N)
appends it under the implicit batch transaction with a fsynced commit
every Nth operation, and Unsafe bypasses the WAL. -/
def Handle.updateOne (h : Handle) (col : String) (conds : List Cond)
    (u : UpdateSpec) : Handle × Except DbError UpdateResult :=
  let c := h.mem.getCol col
  match c.docs.find? (fun p => matchesConds conds p.2) with
  | none => (h, .ok ⟨0, 0⟩)
  | some (id, d0) =>
    match applyUpdate u d0 with
    | none => (h, .error .invalidArgument)
    | some d' =>
      if d'.beq d0 then (h, .ok ⟨1, 0⟩)
      else
        let op := Op.updateOp col id d'
        match h.curTx with
        | some t =>
          ({ h with wal := h.wal ++ [.opFrame t op],
                    txBuf := h.txBuf ++ [op] }, .ok ⟨1, 1⟩)
        | none =>
          match h.mode with
          | .safe =>
            let t := h.nextTx
            let wal' := h.wal ++ [.beginTxn t, .opFrame t op, .commitTxn t]
            ({ h with mem := h.mem.applyOp op,
                      wal := wal',
                      walSynced := wal'.length,
                      nextTx := t + 1 }, .ok ⟨1, 1⟩)
          | .batch n =>
            let t := match h.batchTx with | some t => t | none => h.nextTx
            let pre : List Frame := match h.batchTx with
              | some _ => []
              | none => [.beginTxn t]
            let cnt := h.batchCount + 1
            if n ≤ cnt then
              let wal' := h.wal ++ pre ++ [.opFrame t op, .commitTxn t]
              ({ h with mem := h.mem.applyOp op,
                        wal := wal',
                        walSynced := wal'.length,
                        nextTx := max h.nextTx (t + 1),
                        batchTx := none,
                        batchCount := 0 }, .ok ⟨1, 1⟩)
            else
              ({ h with mem := h.mem.applyOp op,
                        wal := h.wal ++ pre ++ [.opFrame t op],
                        nextTx := max h.nextTx (t + 1),
                        batchTx := some t,
                        batchCount := cnt }, .ok ⟨1, 1⟩)
          | .unsafeMode =>
            ({ h with mem := h.mem.applyOp op }, .ok ⟨1, 1⟩)

/-- Modelled from the spec (§4.2, §4.8, §4.9) and the repository's
transaction tests: a plain (non-`_tx`) `delete_one`.  The filter selects
the first matching live document of the in-memory state; the deletion is
materialized as a `Delete(col, _id)` operation.  Deleting with no match
reports `deleted_count = 0` and writes nothing.  With an open transaction
the operation is captured into it; otherwise it follows the durability
mode exactly as `insert_one`/`update_one` do. -/
def Handle.deleteOne (h : Handle) (col : String) (conds : List Cond) :
    Handle × Nat :=
  let c := h.mem.getCol col
  match c.docs.find? (fun p => matchesConds conds p.2) with
  | none => (h, 0)
  | some (id, _) =>
    let op := Op.deleteOp col id
    match h.curTx with
    | some t =>
      ({ h with wal := h.wal ++ [.opFrame t op],
                txBuf := h.txBuf ++ [op] }, 1)
    | none =>
      match h.mode with
      | .safe =>
        let t := h.nextTx
        let wal' := h.wal ++ [.beginTxn t, .opFrame t op, .commitTxn t]
        ({ h with mem := h.mem.applyOp op,
                  wal := wal',
                  walSynced := wal'.length,
                  nextTx := t + 1 }, 1)
      | .batch n =>
        let t := match h.batchTx with | some t => t | none => h.nextTx
        let pre : List Frame := match h.batchTx with
          | some _ => []
          | none => [.beginTxn t]
        let cnt := h.batchCount + 1
        if n ≤ cnt then
          let wal' := h.wal ++ pre ++ [.opFrame t op, .commitTxn t]
          ({ h with mem := h.mem.applyOp op,
                    wal := wal',
                    walSynced := wal'.length,
                    nextTx := max h.nextTx (t + 1),
                    batchTx := none,
                    batchCount := 0 }, 1)
        else
          ({ h with mem := h.mem.applyOp op,
                    wal := h.wal ++ pre ++ [.opFrame t op],
                    nextTx := max h.nextTx (t + 1),
                    batchTx := some t,
                    batchCount := cnt }, 1)
      | .unsafeMode =>
        ({ h with mem := h.mem.applyOp op }, 1)

/-- Modelled from the spec (§4.8): `begin_transaction` allocates a
monotone transaction id and appends `BeginTxn` to the WAL in the durable
modes. -/
def Handle.beginTransaction (h : Handle) : Handle × Nat :=
  let t := h.nextTx
  ({ h with nextTx := t + 1,
            curTx := some t,
            txBuf := [],
            wal := match h.mode with
              | .unsafeMode => h.wal
              | _ => h.wal ++ [.beginTxn t] }, t)

/-- Modelled from the spec (§4.8): `insert_one_tx` appends the operation
frame to the WAL and buffers the effect in the coordinator; readers do not
see it before commit.  An unknown transaction id fails
`TransactionNotFound`. -/
def Handle.insertOneTx (h : Handle) (col : String) (d : Value) (t : Nat) :
    Handle × Except DbError Nat :=
  if h.curTx = some t then
    let c := h.mem.getCol col
    let id := c.lastId + 1
    let op := Op.insertOp col id d
    ({ h with mem := h.mem.setCol col ⟨id, c.docs⟩,
              wal := h.wal ++ [.opFrame t op],
              txBuf := h.txBuf ++ [op] }, .ok id)
  else (h, .error .transactionNotFound)

/-- Modelled from the spec (§4.8): `commit_transaction` appends
`CommitTxn`, fsyncs the WAL in Safe mode, and applies the buffered
operations to the in-memory state. -/
def Handle.commitTransaction (h : Handle) (t : Nat) :
    Handle × Except DbError Unit :=
  if h.curTx = some t then
    let wal' := h.wal ++ [.commitTxn t]
    ({ h with wal := wal',
              walSynced := match h.mode with
                | .safe => wal'.length
                | _ => h.walSynced,
              mem := h.txBuf.foldl DbState.applyOp h.mem,
              curTx := none,
              txBuf := [] }, .ok ())
  else (h, .error .transactionNotFound)

/-- Modelled from the spec (§4.8): `rollback_transaction` discards the
buffered operations; no WAL entry is required — the absence of `CommitTxn`
suffices. -/
def Handle.rollbackTransaction (h : Handle) (t : Nat) :
    Handle × Except DbError Unit :=
  if h.curTx = some t then
    ({ h with curTx := none, txBuf := [] }, .ok ())
  else (h, .error .transactionNotFound)

/-- Run a sequence of plain inserts into one collection. -/
def Handle.insertSeq (h : Handle) (col : String) (docs : List Value) : Handle :=
  docs.foldl (fun h d => (h.insertOne col d).1) h

/-- Modelled from the spec (§4.2 crash model): after a crash, the fsynced
prefix of the WAL survives; of the unsynced tail an arbitrary further
prefix may have reached disk.  Reopening replays the surviving log over
the last checkpointed state. -/
def Handle.recoverState (h : Handle) (k : Nat) : DbState :=
  recover h.checkpointed (h.wal.take k)

/-! ## Basic lemmas about the model -/

theorem DbState.getCol_setCol_self (st : DbState) (n : String) (c : Collection) :
    (st.setCol n c).getCol n = c := by
  induction st with
  | nil => simp [DbState.setCol, DbState.getCol]
  | cons p rest ih =>
    obtain ⟨m, c'⟩ := p
    by_cases h : m = n
    · simp [DbState.setCol, DbState.getCol, h]
    · simp [DbState.setCol, DbState.getCol, h, ih]

theorem DbState.getCol_setCol_ne (st : DbState) (n m : String) (c : Collection)
    (h : n ≠ m) : (st.setCol n c).getCol m = st.getCol m := by
  induction st with
  | nil => simp [DbState.setCol, DbState.getCol, h]
  | cons p rest ih =>
    obtain ⟨l, c'⟩ := p
    by_cases hl : l = n
    · subst hl
      simp [DbState.setCol, DbState.getCol, h]
    · simp [DbState.setCol, DbState.getCol, hl, ih]

theorem Collection.countDocuments_nil (c : Collection) :
    c.countDocuments [] = c.docs.length := by
  rw [Collection.countDocuments, Collection.find,
    List.filter_eq_self.mpr fun a _ => by simp [matchesConds]]
  simp

theorem Collection.find_eq_of_docs_eq (c₁ c₂ : Collection) (conds : List Cond)
    (h : c₁.docs = c₂.docs) : c₁.find conds = c₂.find conds := by
  simp [Collection.find, h]

theorem walCommitted_append (w p : List Frame) (t : Nat) :
    walCommitted (w ++ p) t = (walCommitted w t || walCommitted p t) := by
  simp [walCommitted]

theorem walCommitted_of_no_commits (p : List Frame) (t : Nat)
    (h : ∀ f ∈ p, f.isCommit = false) : walCommitted p t = false := by
  rw [walCommitted, List.any_eq_false]
  intro f hf
  have := h f hf
  cases f <;> simp_all [Frame.isCommitOf, Frame.isCommit]

theorem walCommitted_take_false (l : List Frame) (t k : Nat)
    (h : walCommitted l t = false) : walCommitted (l.take k) t = false := by
  rw [walCommitted, List.any_eq_false] at h ⊢
  intro f hf
  exact h f (List.take_subset k l hf)

theorem walReplayTagged_append_uncommitted (w p : List Frame)
    (h1 : ∀ f ∈ p, f.isCommit = false)
    (h2 : ∀ t op, Frame.opFrame t op ∈ p → walCommitted w t = false) :
    walReplayTagged (w ++ p) = walReplayTagged w := by
  have hcomm : ∀ u, walCommitted (w ++ p) u = walCommitted w u := by
    intro u
    rw [walCommitted_append, walCommitted_of_no_commits p u h1, Bool.or_false]
  rw [walReplayTagged, List.filterMap_append]
  have hw : w.filterMap (replayKeep (w ++ p)) = w.filterMap (replayKeep w) := by
    apply List.filterMap_congr
    intro f _
    cases f <;> simp [replayKeep, hcomm]
  have hp : p.filterMap (replayKeep (w ++ p)) = [] := by
    rw [List.filterMap_eq_nil_iff]
    intro f hf
    cases f with
    | opFrame t op => simp [replayKeep, hcomm, h2 t op hf]
    | commitTxn t => exact absurd (h1 _ hf) (by simp [Frame.isCommit])
    | beginTxn t => rfl
    | checkpointF => rfl
  rw [hw, hp, List.append_nil, walReplayTagged]

theorem walReplayTagged_append_block (w : List Frame) (t : Nat) (op : Op)
    (hfresh : walHasTx w t = false) :
    walReplayTagged (w ++ [.beginTxn t, .opFrame t op, .commitTxn t])
      = walReplayTagged w ++ [(t, op)] := by
  have hc : walCommitted (w ++ [.beginTxn t, .opFrame t op, .commitTxn t]) t = true := by
    rw [walCommitted_append]
    have : walCommitted [Frame.beginTxn t, .opFrame t op, .commitTxn t] t = true := by
      simp [walCommitted, Frame.isCommitOf]
    simp [this]
  have hw : w.filterMap (replayKeep (w ++ [.beginTxn t, .opFrame t op, .commitTxn t]))
      = w.filterMap (replayKeep w) := by
    apply List.filterMap_congr
    intro f hf
    cases f with
    | opFrame u op' =>
      have hu : u ≠ t := by
        intro he
        subst he
        have : walHasTx w u = true := by
          rw [walHasTx, List.any_eq_true]
          exact ⟨_, hf, by simp [Frame.txOf]⟩
        rw [this] at hfresh
        exact Bool.true_eq_false.mp hfresh
      have hblk : walCommitted [Frame.beginTxn t, .opFrame t op, .commitTxn t] u = false := by
        simp [walCommitted, Frame.isCommitOf]
        exact fun he => absurd he.symm hu
      simp [replayKeep, walCommitted_append, hblk]
    | beginTxn u => rfl
    | commitTxn u => rfl
    | checkpointF => rfl
  rw [walReplayTagged, List.filterMap_append, hw, walReplayTagged]
  congr 1
  simp [replayKeep, hc]

theorem replay_filter_spec (L W : List Frame) (t : Nat) :
    (L.filterMap (replayKeep W)).filter (fun p => p.1 == t)
      = if walCommitted W t = true
        then (walOpsOf L t).map (fun op => (t, op))
        else [] := by
  induction L with
  | nil =>
    simp only [List.filterMap_nil, List.filter_nil, walOpsOf, List.map_nil]
    split <;> rfl
  | cons f rest ih =>
    cases f with
    | opFrame u op =>
      by_cases hut : u = t
      · subst hut
        by_cases hc : walCommitted W u = true
        · simp [replayKeep, hc, walOpsOf, List.filterMap_cons, ih, walOpsOf]
        · have hc' : walCommitted W u = false := by simpa using hc
          simp [replayKeep, hc', walOpsOf, ih, List.filterMap_cons]
      · by_cases hc : walCommitted W u = true
        · simp [replayKeep, hc, walOpsOf, hut, ih, List.filterMap_cons, List.filter_cons]
        · have hc' : walCommitted W u = false := by simpa using hc
          simp [replayKeep, hc', walOpsOf, hut, ih, List.filterMap_cons]
    | beginTxn u => simpa [replayKeep, walOpsOf] using ih
    | commitTxn u => simpa [replayKeep, walOpsOf] using ih
    | checkpointF => simpa [replayKeep, walOpsOf] using ih

/-- Invariant of a Safe-mode handle running plain operations: no open
transaction, the whole WAL fsynced, all logged transaction ids below the
allocator, and replaying the WAL over the checkpointed state reproduces
the in-memory state. -/
def SafePlainInv (h : Handle) : Prop :=
  h.mode = .safe ∧ h.curTx = none ∧
  h.walSynced = h.wal.length ∧
  (∀ t, walHasTx h.wal t = true → t < h.nextTx) ∧
  recover h.checkpointed h.wal = h.mem

theorem insertOne_safe_step (h : Handle) (col : String) (d : Value)
    (hinv : SafePlainInv h) :
    SafePlainInv (h.insertOne col d).1
    ∧ (h.insertOne col d).1.checkpointed = h.checkpointed
    ∧ (((h.insertOne col d).1).mem.getCol col).docs.length
        = ((h.mem.getCol col).docs).length + 1 := by
  obtain ⟨hm, ht, hs, hlt, hr⟩ := hinv
  have hfresh : walHasTx h.wal h.nextTx = false := by
    cases hx : walHasTx h.wal h.nextTx with
    | false => rfl
    | true => exact absurd (hlt _ hx) (lt_irrefl _)
  have hh : (h.insertOne col d).1 = { h with
      mem := h.mem.applyOp (.insertOp col ((h.mem.getCol col).lastId + 1) d),
      wal := h.wal ++ [.beginTxn h.nextTx,
        .opFrame h.nextTx (.insertOp col ((h.mem.getCol col).lastId + 1) d),
        .commitTxn h.nextTx],
      walSynced := (h.wal ++ [Frame.beginTxn h.nextTx,
        Frame.opFrame h.nextTx (.insertOp col ((h.mem.getCol col).lastId + 1) d),
        Frame.commitTxn h.nextTx]).length,
      nextTx := h.nextTx + 1 } := by
    simp only [Handle.insertOne, ht, hm]
  rw [hh]
  refine ⟨⟨hm, ht, rfl, ?_, ?_⟩, rfl, ?_⟩
  · intro t htx
    simp only [walHasTx, List.any_append, Bool.or_eq_true] at htx
    rcases htx with hw | hb
    · exact lt_trans (hlt t hw) (Nat.lt_succ_self _)
    · have : t = h.nextTx := by
        simp only [List.any_cons, List.any_nil, Frame.txOf, Bool.or_eq_true,
          Bool.or_false, beq_iff_eq, Option.some.injEq] at hb
        rcases hb with h1 | h1 | h1 <;> omega
      subst this
      exact Nat.lt_succ_self _
  · show recover h.checkpointed _ = _
    rw [recover, walReplayOps,
      walReplayTagged_append_block _ _ _ hfresh, List.map_append, List.foldl_append]
    simp only [List.map_cons, List.map_nil, List.foldl_cons, List.foldl_nil]
    congr 1
  · simp [DbState.applyOp, DbState.getCol_setCol_self]

theorem insertSeq_safe (docs : List Value) (h : Handle) (col : String)
    (hinv : SafePlainInv h) :
    SafePlainInv (h.insertSeq col docs)
    ∧ (h.insertSeq col docs).checkpointed = h.checkpointed
    ∧ ((h.insertSeq col docs).mem.getCol col).docs.length
        = ((h.mem.getCol col).docs).length + docs.length := by
  induction docs generalizing h with
  | nil => exact ⟨hinv, rfl, rfl⟩
  | cons d ds ih =>
    have hstep := insertOne_safe_step h col d hinv
    have hseq := ih (h.insertOne col d).1 hstep.1
    have hun : h.insertSeq col (d :: ds) = ((h.insertOne col d).1).insertSeq col ds := rfl
    rw [hun]
    refine ⟨hseq.1, hseq.2.1.trans hstep.2.1, ?_⟩
    rw [hseq.2.2, hstep.2.2]
    simp only [List.length_cons]
    omega

/-! ## Concrete scenarios from the spec's end-to-end tests (§8) -/

set_option maxRecDepth 80000

/-- The document `{"v": i}` used by the crash-recovery scenarios. -/
def sampleDoc (i : Nat) : Value := .doc [("v", .int (Int.ofNat i))]

/-- S2 run: open Batch(N=10), insert 25 documents, no close. -/
def batchRun : Handle :=
  (Handle.openFresh (.batch 10)).insertSeq "test" ((List.range 25).map sampleDoc)

/-- The 25 catalog entries of the S2 run in insertion order. -/
def batchInsertedPairs : List (Nat × Value) :=
  (List.range 25).map fun i => (i + 1, sampleDoc i)

/-! ## Claim theorems -/

/-- C1: In Safe durability mode, for every sequence of acknowledged plain
inserts on a freshly opened handle followed by a crash without close or
checkpoint (any surviving WAL prefix at least the fsynced length),
reopening recovers every acknowledged document: `count_documents({})`
returns exactly the number of documents inserted before the crash. -/
theorem safe_mode_zero_data_loss (docs : List Value) (col : String) (k : Nat)
    (hk : ((Handle.openFresh .safe).insertSeq col docs).walSynced ≤ k) :
    ((((Handle.openFresh .safe).insertSeq col docs).recoverState k).getCol col).countDocuments []
      = docs.length := by
  have hbase : SafePlainInv (Handle.openFresh .safe) := by
    refine ⟨rfl, rfl, rfl, ?_, rfl⟩
    intro t htx
    simp [walHasTx, Handle.openFresh] at htx
  obtain ⟨hinv, hcp, hcount⟩ := insertSeq_safe docs (Handle.openFresh .safe) col hbase
  obtain ⟨hm, ht, hs, hlt, hr⟩ := hinv
  rw [Handle.recoverState, List.take_of_length_le (by rw [← hs]; exact hk), hr,
    Collection.countDocuments_nil, hcount]
  simp [Handle.openFresh, DbState.getCol, DbState.empty, Collection.empty]

/-- Witness for C1 at a concrete input: three inserted documents, crash
point at the fsynced WAL length 9. -/
theorem safe_mode_zero_data_loss_witness :
    ((Handle.openFresh .safe).insertSeq "test" [sampleDoc 0, sampleDoc 1, sampleDoc 2]).walSynced ≤ 9
    ∧ ((((Handle.openFresh .safe).insertSeq "test"
          [sampleDoc 0, sampleDoc 1, sampleDoc 2]).recoverState 9).getCol "test").countDocuments []
        = 3 :=
  ⟨by decide, safe_mode_zero_data_loss [sampleDoc 0, sampleDoc 1, sampleDoc 2] "test" 9 (by decide)⟩

/-- C3: In Batch(N=10) mode, after inserting 25 documents and crashing
without close, recovery from any surviving WAL prefix (at least the
fsynced part) yields a contiguous prefix of the insertion order of length
K ∈ {20, 25}, and `count_documents({})` is between 15 and 25. -/
theorem batch_mode_bounded_loss (k : Nat) (hk : batchRun.walSynced ≤ k) :
    ∃ K, ((batchRun.recoverState k).getCol "test").docs = batchInsertedPairs.take K
      ∧ (K = 20 ∨ K = 25)
      ∧ 15 ≤ ((batchRun.recoverState k).getCol "test").countDocuments []
      ∧ ((batchRun.recoverState k).getCol "test").countDocuments [] ≤ 25 := by
  have hsync : batchRun.walSynced = 24 := by decide
  have hk24 : 24 ≤ k := hsync ▸ hk
  have hsplit : batchRun.wal.take k
      = batchRun.wal.take 24 ++ (batchRun.wal.drop 24).take (k - 24) := by
    have h := List.take_add batchRun.wal 24 (k - 24)
    rwa [show 24 + (k - 24) = k by omega] at h
  have h1 : ∀ f ∈ (batchRun.wal.drop 24).take (k - 24), f.isCommit = false := by
    intro f hf
    have hf' : f ∈ batchRun.wal.drop 24 := List.take_subset _ _ hf
    have hall : ((batchRun.wal.drop 24).all fun f => !f.isCommit) = true := by decide
    simpa using List.all_eq_true.mp hall f hf'
  have h2 : ∀ t op, Frame.opFrame t op ∈ (batchRun.wal.drop 24).take (k - 24) →
      walCommitted (batchRun.wal.take 24) t = false := by
    intro t op hf
    have hf' : Frame.opFrame t op ∈ batchRun.wal.drop 24 := List.take_subset _ _ hf
    have hall : ((batchRun.wal.drop 24).all fun f =>
        match f with
        | .opFrame t _ => !walCommitted (batchRun.wal.take 24) t
        | _ => true) = true := by decide
    simpa using List.all_eq_true.mp hall _ hf'
  have hrec : batchRun.recoverState k
      = recover batchRun.checkpointed (batchRun.wal.take 24) := by
    rw [Handle.recoverState, hsplit, recover, walReplayOps,
      walReplayTagged_append_uncommitted _ _ h1 h2]
    rfl
  refine ⟨20, ?_, Or.inl rfl, ?_, ?_⟩
  · rw [hrec]; rfl
  · rw [hrec]; decide
  · rw [hrec]; decide

/-- Witness for C3 at the crash point k = 24 (exactly the fsynced prefix). -/
theorem batch_mode_bounded_loss_witness :
    batchRun.walSynced ≤ 24
    ∧ ∃ K, ((batchRun.recoverState 24).getCol "test").docs = batchInsertedPairs.take K
      ∧ (K = 20 ∨ K = 25)
      ∧ 15 ≤ ((batchRun.recoverState 24).getCol "test").countDocuments []
      ∧ ((batchRun.recoverState 24).getCol "test").countDocuments [] ≤ 25 :=
  ⟨by decide, batch_mode_bounded_loss 24 (by decide)⟩

/-- C2: WAL replay applies exactly the operations of transactions that
have a matching commit frame: the replayed operations belonging to a
transaction `t` are precisely all of `t`'s logged operations in log order
when a commit frame for `t` is present, and none at all otherwise (all of
a transaction's effects, or none). -/
theorem wal_replay_exactly_committed (wal : List Frame) (t : Nat) :
    (walReplayTagged wal).filter (fun p => p.1 == t)
      = if walCommitted wal t = true
        then (walOpsOf wal t).map (fun op => (t, op))
        else [] :=
  replay_filter_spec wal wal t

/-- C4: In Safe mode with no open transaction, a plain `insert_one`
appends an implicit `BeginTxn`/operation/`Commit` triple to the WAL and
fsyncs it before returning; in particular the WAL is non-empty immediately
after the call returns. -/
theorem safe_mode_implicit_commit (h : Handle) (col : String) (d : Value)
    (hm : h.mode = .safe) (ht : h.curTx = none) :
    ((h.insertOne col d).1).wal
      = h.wal ++ [.beginTxn h.nextTx,
          .opFrame h.nextTx (.insertOp col ((h.mem.getCol col).lastId + 1) d),
          .commitTxn h.nextTx]
    ∧ ((h.insertOne col d).1).walSynced = ((h.insertOne col d).1).wal.length
    ∧ ((h.insertOne col d).1).wal ≠ [] := by
  refine ⟨?_, ?_, ?_⟩
  · simp only [Handle.insertOne, ht, hm]
  · simp only [Handle.insertOne, ht, hm]
  · simp only [Handle.insertOne, ht, hm]
    simp

/-- Witness for C4: a fresh Safe handle, one plain insert. -/
theorem safe_mode_implicit_commit_witness :
    (Handle.openFresh .safe).mode = .safe
    ∧ (Handle.openFresh .safe).curTx = none
    ∧ (((Handle.openFresh .safe).insertOne "test" (sampleDoc 0)).1).wal ≠ [] :=
  ⟨rfl, rfl,
    (safe_mode_implicit_commit (Handle.openFresh .safe) "test" (sampleDoc 0) rfl rfl).2.2⟩

theorem replay_take_append_op_nil (w : List Frame) (t : Nat) (op : Op)
    (hnc : walCommitted w t = false) (k : Nat) :
    (walReplayTagged ((w ++ [Frame.opFrame t op]).take k)).filter
      (fun p => p.1 == t) = [] := by
  have hnc2 : walCommitted ((w ++ [Frame.opFrame t op]).take k) t = false := by
    apply walCommitted_take_false
    rw [walCommitted_append, hnc]
    simp [walCommitted, Frame.isCommitOf]
  rw [walReplayTagged, replay_filter_spec, if_neg (by simp [hnc2])]

theorem walCommitted_after_commit (h : Handle) (t : Nat)
    (ht : h.curTx = some t) :
    walCommitted ((h.commitTransaction t).1).wal t = true := by
  simp [Handle.commitTransaction, ht, walCommitted_append, walCommitted,
    Frame.isCommitOf]

/-- C10: While a transaction is open on the handle, the plain (non-`_tx`)
collection-level mutations — `insert_one`, `update_one` and `delete_one` —
are all captured into it: each appends its materialized operation frame to
the WAL under the open transaction and buffers the effect without touching
any collection's documents, replay of any crash prefix of the WAL applies
none of the transaction's operations, and only `commit_transaction` adds
the commit frame that makes them durable. -/
theorem open_transaction_captures_plain_ops
    (h : Handle) (col : String) (d : Value) (t : Nat)
    (condsU condsD : List Cond) (u : UpdateSpec)
    (idU : Nat) (dU dU2 : Value) (idD : Nat) (dD : Value)
    (ht : h.curTx = some t) (hnc : walCommitted h.wal t = false)
    (hfindU : ((h.mem.getCol col).docs.find? fun p => matchesConds condsU p.2)
      = some (idU, dU))
    (happU : applyUpdate u dU = some dU2)
    (hchg : dU2.beq dU = false)
    (hfindD : ((h.mem.getCol col).docs.find? fun p => matchesConds condsD p.2)
      = some (idD, dD)) :
    (((h.insertOne col d).1).wal
        = h.wal ++ [.opFrame t (.insertOp col ((h.mem.getCol col).lastId + 1) d)]
      ∧ ((h.insertOne col d).1).txBuf
        = h.txBuf ++ [.insertOp col ((h.mem.getCol col).lastId + 1) d]
      ∧ (∀ name, (((h.insertOne col d).1).mem.getCol name).docs
          = (h.mem.getCol name).docs)
      ∧ (∀ k, (walReplayTagged (((h.insertOne col d).1).wal.take k)).filter
          (fun p => p.1 == t) = [])
      ∧ walCommitted ((((h.insertOne col d).1).commitTransaction t).1).wal t = true)
    ∧ ((h.updateOne col condsU u).1.wal
        = h.wal ++ [.opFrame t (.updateOp col idU dU2)]
      ∧ (h.updateOne col condsU u).1.txBuf = h.txBuf ++ [.updateOp col idU dU2]
      ∧ (h.updateOne col condsU u).2 = .ok ⟨1, 1⟩
      ∧ (h.updateOne col condsU u).1.mem = h.mem
      ∧ (∀ k, (walReplayTagged ((h.updateOne col condsU u).1.wal.take k)).filter
          (fun p => p.1 == t) = [])
      ∧ walCommitted (((h.updateOne col condsU u).1.commitTransaction t).1).wal t = true)
    ∧ ((h.deleteOne col condsD).1.wal = h.wal ++ [.opFrame t (.deleteOp col idD)]
      ∧ (h.deleteOne col condsD).1.txBuf = h.txBuf ++ [.deleteOp col idD]
      ∧ (h.deleteOne col condsD).2 = 1
      ∧ (h.deleteOne col condsD).1.mem = h.mem
      ∧ (∀ k, (walReplayTagged ((h.deleteOne col condsD).1.wal.take k)).filter
          (fun p => p.1 == t) = [])
      ∧ walCommitted (((h.deleteOne col condsD).1.commitTransaction t).1).wal t
          = true) := by
  have hhI : (h.insertOne col d).1 = { h with
      mem := h.mem.setCol col ⟨(h.mem.getCol col).lastId + 1, (h.mem.getCol col).docs⟩,
      wal := h.wal ++ [.opFrame t (.insertOp col ((h.mem.getCol col).lastId + 1) d)],
      txBuf := h.txBuf ++ [.insertOp col ((h.mem.getCol col).lastId + 1) d] } := by
    simp only [Handle.insertOne, ht]
  have hhU : h.updateOne col condsU u = ({ h with
      wal := h.wal ++ [.opFrame t (.updateOp col idU dU2)],
      txBuf := h.txBuf ++ [.updateOp col idU dU2] }, .ok ⟨1, 1⟩) := by
    simp only [Handle.updateOne, hfindU, happU, hchg, ht]
    simp
  have hhD : h.deleteOne col condsD = ({ h with
      wal := h.wal ++ [.opFrame t (.deleteOp col idD)],
      txBuf := h.txBuf ++ [.deleteOp col idD] }, 1) := by
    simp only [Handle.deleteOne, hfindD, ht]
  refine ⟨?_, ?_, ?_⟩
  · rw [hhI]
    refine ⟨rfl, rfl, ?_, fun k => replay_take_append_op_nil h.wal t _ hnc k,
      walCommitted_after_commit _ t ht⟩
    intro name
    by_cases hcol : col = name
    · subst hcol; rw [DbState.getCol_setCol_self]
    · rw [DbState.getCol_setCol_ne _ _ _ _ hcol]
  · rw [hhU]
    exact ⟨rfl, rfl, rfl, rfl, fun k => replay_take_append_op_nil h.wal t _ hnc k,
      walCommitted_after_commit _ t ht⟩
  · rw [hhD]
    exact ⟨rfl, rfl, rfl, rfl, fun k => replay_take_append_op_nil h.wal t _ hnc k,
      walCommitted_after_commit _ t ht⟩

/-- A Safe handle holding one committed document with a transaction then
opened on it (transaction id 2). -/
def txOpenHandle : Handle :=
  ((((Handle.openFresh .safe).insertOne "test" (sampleDoc 0)).1).beginTransaction).1

/-- The materialization of `$addToSet {tags: "x"}` applied to
`sampleDoc 0`. -/
def updatedSample : Value := .doc [("v", .int 0), ("tags", .arr [.str "x"])]

/-- Witness for C10: a handle with one committed document and an open
transaction; the theorem is applied with the empty filter selecting that
document for the update and the delete. -/
theorem open_transaction_captures_plain_ops_witness :
    txOpenHandle.curTx = some 2
    ∧ walCommitted txOpenHandle.wal 2 = false
    ∧ ((txOpenHandle.mem.getCol "test").docs.find? fun p => matchesConds [] p.2)
        = some (1, sampleDoc 0)
    ∧ applyUpdate (.addToSet ["tags"] (.str "x")) (sampleDoc 0) = some updatedSample
    ∧ updatedSample.beq (sampleDoc 0) = false
    ∧ (txOpenHandle.updateOne "test" [] (.addToSet ["tags"] (.str "x"))).1.wal
        = txOpenHandle.wal ++ [.opFrame 2 (.updateOp "test" 1 updatedSample)]
    ∧ (txOpenHandle.deleteOne "test" []).1.txBuf
        = txOpenHandle.txBuf ++ [.deleteOp "test" 1] :=
  ⟨rfl, by decide, rfl, rfl, rfl,
    (open_transaction_captures_plain_ops txOpenHandle "test" (sampleDoc 0) 2 [] []
      (.addToSet ["tags"] (.str "x")) 1 (sampleDoc 0) updatedSample 1 (sampleDoc 0)
      rfl (by decide) rfl rfl rfl rfl).2.1.1,
    (open_transaction_captures_plain_ops txOpenHandle "test" (sampleDoc 0) 2 [] []
      (.addToSet ["tags"] (.str "x")) 1 (sampleDoc 0) updatedSample 1 (sampleDoc 0)
      rfl (by decide) rfl rfl rfl rfl).2.2.2.1⟩

/-- The handle after begin → `insert_one_tx` → rollback. -/
def txRollbackRun (h : Handle) (col : String) (d : Value) : Handle :=
  ((((h.beginTransaction).1).insertOneTx col d (h.beginTransaction).2).1.rollbackTransaction
    (h.beginTransaction).2).1

/-- The result reported by the rollback of `txRollbackRun`. -/
def txRollbackResult (h : Handle) (col : String) (d : Value) : Except DbError Unit :=
  ((((h.beginTransaction).1).insertOneTx col d (h.beginTransaction).2).1.rollbackTransaction
    (h.beginTransaction).2).2

/-- C6: `rollback_transaction` discards every buffered operation: after
begin → `insert_one_tx` → rollback, the rollback succeeds, every
collection's documents are exactly as before `begin_transaction`, every
`find` returns what it returned before, and the inserted document is
present afterwards only if it already existed before. -/
theorem rollback_discards_buffered_ops (h : Handle) (col : String) (d : Value) :
    txRollbackResult h col d = .ok ()
    ∧ (∀ name, ((txRollbackRun h col d).mem.getCol name).docs
        = (h.mem.getCol name).docs)
    ∧ (∀ name conds, ((txRollbackRun h col d).mem.getCol name).find conds
        = (h.mem.getCol name).find conds)
    ∧ (∀ id, (id, d) ∈ ((txRollbackRun h col d).mem.getCol col).docs
        → (id, d) ∈ (h.mem.getCol col).docs) := by
  have hres : txRollbackResult h col d = .ok () := by
    simp [txRollbackResult, Handle.beginTransaction, Handle.insertOneTx,
      Handle.rollbackTransaction]
  have hmem : (txRollbackRun h col d).mem
      = h.mem.setCol col ⟨(h.mem.getCol col).lastId + 1, (h.mem.getCol col).docs⟩ := by
    simp [txRollbackRun, Handle.beginTransaction, Handle.insertOneTx,
      Handle.rollbackTransaction]
  have hdocs : ∀ name, ((txRollbackRun h col d).mem.getCol name).docs
      = (h.mem.getCol name).docs := by
    intro name
    rw [hmem]
    by_cases hcol : col = name
    · subst hcol; rw [DbState.getCol_setCol_self]
    · rw [DbState.getCol_setCol_ne _ _ _ _ hcol]
  refine ⟨hres, hdocs, fun name conds =>
    Collection.find_eq_of_docs_eq _ _ conds (hdocs name), fun id hid => ?_⟩
  rw [hdocs col] at hid
  exact hid

/-- C5: With a unique index on a path, inserting a document whose value at
that path equals the indexed value of an existing live document fails with
`DuplicateKey` and leaves the collection unchanged: same state, same
`count_documents({})`, and the previously inserted document intact. -/
theorem unique_index_duplicate_insert (c : Collection) (idx : IndexSpec)
    (d e : Value) (id₀ : Nat) (v : Value)
    (hu : idx.unique = true)
    (hmem : (id₀, e) ∈ c.docs)
    (he : getPath e idx.keyPath = some v)
    (hd : getPath d idx.keyPath = some v) :
    c.insertOne [idx] d = (c, .error .duplicateKey)
    ∧ (c.insertOne [idx] d).1.countDocuments [] = c.countDocuments []
    ∧ (id₀, e) ∈ (c.insertOne [idx] d).1.docs := by
  have hviol : uniqueViolation c idx d = true := by
    simp only [uniqueViolation, hu, Bool.true_and, hd]
    rw [List.any_eq_true]
    exact ⟨(id₀, e), hmem, by simp [he, Value.beq_refl]⟩
  have hins : c.insertOne [idx] d = (c, .error .duplicateKey) := by
    rw [Collection.insertOne, if_pos (by simp [hviol])]
  exact ⟨hins, by rw [hins], by rw [hins]; exact hmem⟩

/-- Witness for C5: the S4 scenario — a unique index on `email`, the same
`{email: "a@x"}` inserted twice. -/
theorem unique_index_duplicate_insert_witness :
    (IndexSpec.mk ["email"] true).unique = true
    ∧ (1, Value.doc [("email", .str "a@x")])
        ∈ (Collection.mk 1 [(1, .doc [("email", .str "a@x")])]).docs
    ∧ getPath (.doc [("email", .str "a@x")]) ["email"] = some (.str "a@x")
    ∧ (Collection.mk 1 [(1, .doc [("email", .str "a@x")])]).insertOne
        [⟨["email"], true⟩] (.doc [("email", .str "a@x")])
      = (⟨1, [(1, .doc [("email", .str "a@x")])]⟩, .error .duplicateKey) :=
  ⟨rfl, List.mem_singleton.mpr rfl, rfl,
    (unique_index_duplicate_insert ⟨1, [(1, .doc [("email", .str "a@x")])]⟩
      ⟨["email"], true⟩ (.doc [("email", .str "a@x")]) (.doc [("email", .str "a@x")])
      1 (.str "a@x") rfl (List.mem_singleton.mpr rfl) rfl rfl).1⟩

theorem setField_lookup_self (fs : List (String × Value)) (k : String) (w : Value)
    (h : lookupField fs k = some w) : setField fs k w = fs := by
  induction fs with
  | nil => simp [lookupField] at h
  | cons p rest ih =>
    obtain ⟨l, u⟩ := p
    by_cases hl : l = k
    · subst hl
      have h' : u = w := by simpa [lookupField] using h
      subst h'
      simp [setField]
    · simp only [lookupField, if_neg hl] at h
      simp [setField, hl, ih h]

theorem addToSet_already_present (v : Value) :
    ∀ (p : List String) (d : Value) (xs : List Value), p ≠ [] →
      getPath d p = some (.arr xs) → xs.any (fun x => x.beq v) = true →
      applyAddToSet d p v = some d := by
  intro p
  induction p with
  | nil => intro d xs hne; exact absurd rfl hne
  | cons k rest ih =>
    intro d xs _ hget hin
    cases d with
    | doc fs =>
      rw [getPath] at hget
      cases hl : lookupField fs k with
      | none => rw [hl] at hget; exact absurd hget (by simp)
      | some w =>
        rw [hl] at hget
        cases rest with
        | nil =>
          have hw : w = .arr xs := by simpa [getPath] using hget
          subst hw
          simp [applyAddToSet, hl, hin]
        | cons k2 r2 =>
          have hsub := ih w xs (by simp) hget hin
          simp [applyAddToSet, hl, hsub, setField_lookup_self fs k w hl]
    | null => exact absurd hget (by simp [getPath])
    | bool b => exact absurd hget (by simp [getPath])
    | int n => exact absurd hget (by simp [getPath])
    | str s => exact absurd hget (by simp [getPath])
    | arr ys => exact absurd hget (by simp [getPath])

/-- C9: `$addToSet` with a value already present (deep-equal) in the array
at the target path is a no-op: `update_one` reports `matched_count = 1`,
`modified_count = 0` and leaves the collection (hence the document and its
array) unchanged, so applying it twice equals applying it once. -/
theorem addtoset_duplicate_noop (c : Collection) (conds : List Cond)
    (k : String) (rest : List String) (v : Value) (id₀ : Nat) (d : Value)
    (xs : List Value)
    (hfind : c.docs.find? (fun p => matchesConds conds p.2) = some (id₀, d))
    (hget : getPath d (k :: rest) = some (.arr xs))
    (hin : xs.any (fun x => x.beq v) = true) :
    c.updateOne conds (.addToSet (k :: rest) v) = (c, .ok ⟨1, 0⟩)
    ∧ ((c.updateOne conds (.addToSet (k :: rest) v)).1).updateOne conds
        (.addToSet (k :: rest) v)
      = c.updateOne conds (.addToSet (k :: rest) v) := by
  have happ : applyAddToSet d (k :: rest) v = some d :=
    addToSet_already_present v (k :: rest) d xs (by simp) hget hin
  have h1 : c.updateOne conds (.addToSet (k :: rest) v) = (c, .ok ⟨1, 0⟩) := by
    rw [Collection.updateOne, hfind]
    simp [applyUpdate, happ, Value.beq_refl]
  refine ⟨h1, ?_⟩
  rw [h1]
  exact h1

/-- Witness for C9: the repository's `$addToSet` duplicate test —
`{_id: 1, tags: ["rust", "python"]}` with `$addToSet {tags: "rust"}`. -/
theorem addtoset_duplicate_noop_witness :
    ((Collection.mk 1 [(1, .doc [("_id", .int 1),
        ("tags", .arr [.str "rust", .str "python"])])]).docs.find?
      (fun p => matchesConds [⟨["_id"], .eq, .int 1⟩] p.2)
      = some (1, .doc [("_id", .int 1), ("tags", .arr [.str "rust", .str "python"])]))
    ∧ ([Value.str "rust", .str "python"].any fun x => x.beq (.str "rust")) = true
    ∧ (Collection.mk 1 [(1, .doc [("_id", .int 1),
          ("tags", .arr [.str "rust", .str "python"])])]).updateOne
        [⟨["_id"], .eq, .int 1⟩] (.addToSet ["tags"] (.str "rust"))
      = (⟨1, [(1, .doc [("_id", .int 1),
          ("tags", .arr [.str "rust", .str "python"])])]⟩, .ok ⟨1, 0⟩) :=
  ⟨rfl, rfl,
    (addtoset_duplicate_noop
      ⟨1, [(1, .doc [("_id", .int 1), ("tags", .arr [.str "rust", .str "python"])])]⟩
      [⟨["_id"], .eq, .int 1⟩] "tags" [] (.str "rust") 1
      (.doc [("_id", .int 1), ("tags", .arr [.str "rust", .str "python"])])
      [.str "rust", .str "python"] rfl rfl rfl).1⟩

/-- One product document of the repository's complex-query test data. -/
def product (nm cat : String) (price stock : Int) : Value :=
  .doc [("name", .str nm), ("category", .str cat),
        ("price", .int price), ("stock", .int stock)]

/-- The six products of the repository's complex-query test. -/
def productsCol : Collection :=
  ⟨6, [(1, product "Laptop" "electronics" 1200 5),
       (2, product "Mouse" "electronics" 25 50),
       (3, product "Desk" "furniture" 300 10),
       (4, product "Chair" "furniture" 150 20),
       (5, product "Monitor" "electronics" 400 8),
       (6, product "Keyboard" "electronics" 75 30)]⟩

/-- The range filter `{"price": {"$gt": 50, "$lt": 500}}`. -/
def priceRange : List Cond :=
  [⟨["price"], .gt, .int 50⟩, ⟨["price"], .lt, .int 500⟩]

/-- C7 (specified behaviour at the repository's failing input): evaluating
the conjunction of `$gt`/`$lt` on the same path over the six-product
collection returns exactly the four documents satisfying both comparisons;
the 1200-priced document that fails `$lt 500` is not returned.  (The
shipped engine, by its own test's account, returns it.) -/
theorem find_price_range_conjunction_exact :
    productsCol.find priceRange
      = [product "Desk" "furniture" 300 10, product "Chair" "furniture" 150 20,
         product "Monitor" "electronics" 400 8, product "Keyboard" "electronics" 75 30]
    ∧ productsCol.countDocuments priceRange = 4
    ∧ ((productsCol.find priceRange).any fun d =>
        d.beq (product "Laptop" "electronics" 1200 5)) = false :=
  ⟨rfl, rfl, rfl⟩

/-- S6 run: insert 200 documents, delete every other one (the 100 odd
`_id`s). -/
def compactScenario : Store :=
  (List.range 100).foldl (fun s j => (s.deleteDoc (2 * j + 1)).1)
    ((List.range 200).foldl (fun s i => s.insertDoc (sampleDoc i)) Store.empty)

/-- C8: After inserting 200 documents and deleting 100, `compact()`
reports `documents_kept = 100` and `tombstones_removed = 100`, the primary
file size strictly decreases, `count_documents({})` is 100 afterwards, and
every remaining document is still findable, including after close and
reopen. -/
theorem compaction_reclaims :
    (compactScenario.compact).2.documentsKept = 100
    ∧ (compactScenario.compact).2.tombstonesRemoved = 100
    ∧ (compactScenario.compact).2.sizeAfter < (compactScenario.compact).2.sizeBefore
    ∧ ((compactScenario.compact).1).fileSize < compactScenario.fileSize
    ∧ ((compactScenario.compact).1).countDocuments = 100
    ∧ (openStore (((compactScenario.compact).1).close)).countDocuments = 100
    ∧ ((List.range 100).all fun j =>
        match (openStore (((compactScenario.compact).1).close)).lookup (2 * j + 2) with
        | some d => d.beq (sampleDoc (2 * j + 1))
        | none => false) = true :=
  ⟨by decide, by decide, by decide, by decide, by decide, by decide, by decide⟩

end IronBase
